import Mathlib

/-!
# Verification of the superchain-registry version-resolution core

This file gives a shallow embedding of the version-resolution and scope-merge
logic of `superchain/superchain.go` and proves (or refutes) the specification
claims about it.

The embedding covers:
* the semantic-version comparison and sorting used by the code, a faithful
  model of the `golang.org/x/mod/semver` package (`parseSemver`, `scmp`,
  version sorting);
* `AddressSet` (`Get`, `Versions`), `resolve`, `ContractImplementations`
  (`Resolve`, `Merge`), modelled directly from the Go source.

Go maps are modelled as association lists (`List (String × Address)`); Go map
iteration order is irrelevant here because the code sorts keys with a total
order before use, and lookups are order-independent on duplicate-free lists.
-/

/-! ## Orderings and comparators

`golang.org/x/mod/semver` compares versions with three-valued integer results.
We model each comparison as an `Ordering`-valued comparator and prove the
swap/equality/transitivity laws needed to reason about sorted scans.
-/

/-- Three-way comparison on naturals, as used for semver numeric fields.
`compareInt` in the Go library compares canonical (no leading zero) digit
strings by length and then lexicographically, which coincides with numeric
comparison of their values. -/
def cmpNat (a b : Nat) : Ordering :=
  if a < b then .lt else if b < a then .gt else .eq

theorem cmpNat_lt_iff {a b : Nat} : cmpNat a b = .lt ↔ a < b := by
  unfold cmpNat
  split
  · simp; omega
  · split <;> simp <;> omega

theorem cmpNat_eq_iff {a b : Nat} : cmpNat a b = .eq ↔ a = b := by
  unfold cmpNat
  split
  · simp; omega
  · split <;> simp <;> omega

theorem cmpNat_gt_iff {a b : Nat} : cmpNat a b = .gt ↔ b < a := by
  unfold cmpNat
  split
  · simp; omega
  · split <;> simp <;> omega

theorem cmpNat_swap (a b : Nat) : cmpNat b a = (cmpNat a b).swap := by
  rcases h : cmpNat a b with _ | _ | _
  · rw [cmpNat_lt_iff] at h
    simp [Ordering.swap, cmpNat_gt_iff.mpr h]
  · rw [cmpNat_eq_iff] at h
    simp [Ordering.swap, cmpNat_eq_iff.mpr h.symm]
  · rw [cmpNat_gt_iff] at h
    simp [Ordering.swap, cmpNat_lt_iff.mpr h]

theorem cmpNat_lt_trans {a b c : Nat} (h1 : cmpNat a b = .lt) (h2 : cmpNat b c = .lt) :
    cmpNat a c = .lt := by
  rw [cmpNat_lt_iff] at h1 h2 ⊢
  omega

/-- Three-way comparison on characters by code point.  Go compares strings
bytewise; on UTF-8 encoded strings bytewise order coincides with code-point
order, so this matches Go string comparison. -/
def cmpChar (a b : Char) : Ordering := cmpNat a.toNat b.toNat

theorem char_toNat_inj {a b : Char} (h : a.toNat = b.toNat) : a = b :=
  Char.eq_of_val_eq (UInt32.eq_of_toBitVec_eq (BitVec.eq_of_toNat_eq h))

theorem cmpChar_eq_iff {a b : Char} : cmpChar a b = .eq ↔ a = b := by
  unfold cmpChar
  rw [cmpNat_eq_iff]
  exact ⟨char_toNat_inj, fun h => h ▸ rfl⟩

theorem cmpChar_swap (a b : Char) : cmpChar b a = (cmpChar a b).swap := cmpNat_swap _ _

theorem cmpChar_lt_trans {a b c : Char} (h1 : cmpChar a b = .lt) (h2 : cmpChar b c = .lt) :
    cmpChar a c = .lt := cmpNat_lt_trans h1 h2

/-- Lexicographic comparison of lists with a given element comparator:
first difference decides; a proper prefix is smaller. -/
def cmpList (cmp : α → α → Ordering) : List α → List α → Ordering
  | [], [] => .eq
  | [], _ :: _ => .lt
  | _ :: _, [] => .gt
  | a :: as, b :: bs =>
    match cmp a b with
    | .eq => cmpList cmp as bs
    | o => o

theorem cmpList_swap (cmp : α → α → Ordering)
    (hw : ∀ x y, cmp y x = (cmp x y).swap) :
    ∀ as bs, cmpList cmp bs as = (cmpList cmp as bs).swap
  | [], [] => rfl
  | [], _ :: _ => rfl
  | _ :: _, [] => rfl
  | a :: as, b :: bs => by
    rw [cmpList, cmpList, hw a b]
    rcases h : cmp a b with _ | _ | _ <;> simp [Ordering.swap]
    exact cmpList_swap cmp hw as bs

theorem cmpList_eq_iff (cmp : α → α → Ordering)
    (he : ∀ x y, cmp x y = .eq ↔ x = y) :
    ∀ as bs, cmpList cmp as bs = .eq ↔ as = bs
  | [], [] => by simp [cmpList]
  | [], _ :: _ => by simp [cmpList]
  | _ :: _, [] => by simp [cmpList]
  | a :: as, b :: bs => by
    rw [cmpList]
    rcases h : cmp a b with _ | _ | _ <;> simp only []
    · simp only [List.cons.injEq]
      constructor
      · intro hx
        exact absurd hx (by simp)
      · rintro ⟨h1, _⟩
        rw [← he a b] at h1
        rw [h1] at h
        exact absurd h (by simp)
    · rw [cmpList_eq_iff cmp he as bs]
      have hab : a = b := (he a b).mp h
      simp [hab]
    · simp only [List.cons.injEq]
      constructor
      · intro hx
        exact absurd hx (by simp)
      · rintro ⟨h1, _⟩
        rw [← he a b] at h1
        rw [h1] at h
        exact absurd h (by simp)

theorem cmpList_lt_trans (cmp : α → α → Ordering)
    (he : ∀ x y, cmp x y = .eq ↔ x = y)
    (ht : ∀ x y z, cmp x y = .lt → cmp y z = .lt → cmp x z = .lt) :
    ∀ as bs cs, cmpList cmp as bs = .lt → cmpList cmp bs cs = .lt →
      cmpList cmp as cs = .lt
  | [], bs, [] => by
    intro _ h2
    cases bs <;> simp [cmpList] at h2
  | [], _, _ :: _ => by intro _ _; simp [cmpList]
  | _ :: _, [], _ => by intro h1 _; simp [cmpList] at h1
  | _ :: _, _ :: _, [] => by intro _ h2; simp [cmpList] at h2
  | a :: as, b :: bs, c :: cs => by
    intro h1 h2
    rw [cmpList] at h1 h2 ⊢
    rcases hab : cmp a b with _ | _ | _ <;> rw [hab] at h1 <;>
      rcases hbc : cmp b c with _ | _ | _ <;> rw [hbc] at h2 <;>
      try simp at h1 h2
    · rw [ht a b c hab hbc]
    · have : b = c := (he b c).mp hbc
      rw [← this, hab]
    · have : a = b := (he a b).mp hab
      rw [this, hbc]
    · have : a = b := (he a b).mp hab
      have h3 : cmp a c = .eq := by
        rw [this, hbc]
      rw [h3]
      exact cmpList_lt_trans cmp he ht as bs cs h1 h2

/-- A prerelease identifier: numeric identifiers (all digits, no leading
zeros) compare below alphanumeric ones; numerics compare by value,
alphanumerics bytewise. -/
inductive Ident where
  | num (n : Nat)
  | alpha (s : String)
deriving DecidableEq, Repr

/-- Comparison of two prerelease identifiers, per `comparePrerelease` in
`golang.org/x/mod/semver`. -/
def cmpIdent : Ident → Ident → Ordering
  | .num a, .num b => cmpNat a b
  | .num _, .alpha _ => .lt
  | .alpha _, .num _ => .gt
  | .alpha a, .alpha b => cmpList cmpChar a.data b.data

theorem string_data_inj {a b : String} (h : a.data = b.data) : a = b := by
  cases a
  cases b
  exact congrArg String.mk h

theorem cmpIdent_eq_iff : ∀ {x y : Ident}, cmpIdent x y = .eq ↔ x = y
  | .num a, .num b => by
    rw [cmpIdent, cmpNat_eq_iff]
    simp
  | .num _, .alpha _ => by simp [cmpIdent]
  | .alpha _, .num _ => by simp [cmpIdent]
  | .alpha a, .alpha b => by
    rw [cmpIdent, cmpList_eq_iff cmpChar (fun x y => cmpChar_eq_iff)]
    constructor
    · intro h
      simp [string_data_inj h]
    · intro h
      simp at h
      simp [h]

theorem cmpIdent_swap (x y : Ident) : cmpIdent y x = (cmpIdent x y).swap := by
  cases x <;> cases y <;> simp only [cmpIdent, Ordering.swap]
  · exact cmpNat_swap _ _
  · exact cmpList_swap cmpChar cmpChar_swap _ _

theorem cmpIdent_lt_trans : ∀ {x y z : Ident}, cmpIdent x y = .lt → cmpIdent y z = .lt →
    cmpIdent x z = .lt
  | .num _, .num _, .num _ => fun h1 h2 => cmpNat_lt_trans h1 h2
  | .num _, .num _, .alpha _ => fun _ _ => rfl
  | .num _, .alpha _, .num _ => fun _ h2 => by simp [cmpIdent] at h2
  | .num _, .alpha _, .alpha _ => fun _ _ => rfl
  | .alpha _, .num _, _ => fun h1 _ => by simp [cmpIdent] at h1
  | .alpha _, .alpha _, .num _ => fun _ h2 => by simp [cmpIdent] at h2
  | .alpha _, .alpha _, .alpha _ => fun h1 h2 =>
    cmpList_lt_trans cmpChar (fun x y => cmpChar_eq_iff)
      (fun _ _ _ => cmpChar_lt_trans) _ _ _ h1 h2

/-- Comparison of prerelease parts.  `none` stands for a release version (no
prerelease), which has higher precedence than any prerelease. -/
def cmpPre : Option (List Ident) → Option (List Ident) → Ordering
  | none, none => .eq
  | none, some _ => .gt
  | some _, none => .lt
  | some a, some b => cmpList cmpIdent a b

theorem cmpPre_eq_iff : ∀ {x y : Option (List Ident)}, cmpPre x y = .eq ↔ x = y
  | none, none => by simp [cmpPre]
  | none, some _ => by simp [cmpPre]
  | some _, none => by simp [cmpPre]
  | some a, some b => by
    rw [cmpPre, cmpList_eq_iff cmpIdent (fun x y => cmpIdent_eq_iff)]
    simp

theorem cmpPre_swap (x y : Option (List Ident)) : cmpPre y x = (cmpPre x y).swap := by
  cases x <;> cases y <;> simp only [cmpPre, Ordering.swap]
  exact cmpList_swap cmpIdent cmpIdent_swap _ _

theorem cmpPre_lt_trans : ∀ {x y z : Option (List Ident)},
    cmpPre x y = .lt → cmpPre y z = .lt → cmpPre x z = .lt
  | none, none, _ => fun h1 _ => by simp [cmpPre] at h1
  | none, some _, _ => fun h1 _ => by simp [cmpPre] at h1
  | some _, none, none => fun _ h2 => by simp [cmpPre] at h2
  | some _, none, some _ => fun _ h2 => by simp [cmpPre] at h2
  | some _, some _, none => fun _ _ => rfl
  | some _, some _, some _ => fun h1 h2 =>
    cmpList_lt_trans cmpIdent (fun x y => cmpIdent_eq_iff)
      (fun _ _ _ => cmpIdent_lt_trans) _ _ _ h1 h2

/-- The parsed form of a semantic version: major, minor and patch numbers and
the optional prerelease identifiers.  Build metadata is validated by parsing
but ignored for precedence, exactly as in `golang.org/x/mod/semver`. -/
structure Parsed where
  major : Nat
  minor : Nat
  patch : Nat
  pre : Option (List Ident)
deriving DecidableEq, Repr

/-- Lexicographic composition helper for `Ordering`. -/
theorem ordThen_eq_iff {o₁ o₂ : Ordering} :
    o₁.then o₂ = .eq ↔ o₁ = .eq ∧ o₂ = .eq := by
  cases o₁ <;> simp [Ordering.then]

theorem ordThen_swap (o₁ o₂ : Ordering) :
    (o₁.then o₂).swap = o₁.swap.then o₂.swap := by
  cases o₁ <;> rfl

theorem ordThen_lt_iff {o₁ o₂ : Ordering} :
    o₁.then o₂ = .lt ↔ o₁ = .lt ∨ (o₁ = .eq ∧ o₂ = .lt) := by
  cases o₁ <;> simp [Ordering.then]

/-- Semver precedence comparison on parsed versions, per `Compare` in
`golang.org/x/mod/semver`: major, then minor, then patch, then prerelease. -/
def cmpParsed (a b : Parsed) : Ordering :=
  (cmpNat a.major b.major).then
    ((cmpNat a.minor b.minor).then
      ((cmpNat a.patch b.patch).then (cmpPre a.pre b.pre)))

theorem cmpParsed_eq_iff {a b : Parsed} : cmpParsed a b = .eq ↔ a = b := by
  unfold cmpParsed
  rw [ordThen_eq_iff, ordThen_eq_iff, ordThen_eq_iff,
    cmpNat_eq_iff, cmpNat_eq_iff, cmpNat_eq_iff, cmpPre_eq_iff]
  cases a
  cases b
  simp only [Parsed.mk.injEq]

theorem cmpParsed_swap (a b : Parsed) : cmpParsed b a = (cmpParsed a b).swap := by
  unfold cmpParsed
  rw [ordThen_swap, ordThen_swap, ordThen_swap,
    cmpNat_swap a.major b.major, cmpNat_swap a.minor b.minor,
    cmpNat_swap a.patch b.patch, cmpPre_swap a.pre b.pre]

theorem cmpParsed_lt_iff {a b : Parsed} :
    cmpParsed a b = .lt ↔
      a.major < b.major ∨ (a.major = b.major ∧
        (a.minor < b.minor ∨ (a.minor = b.minor ∧
          (a.patch < b.patch ∨ (a.patch = b.patch ∧ cmpPre a.pre b.pre = .lt))))) := by
  unfold cmpParsed
  rw [ordThen_lt_iff, ordThen_lt_iff, ordThen_lt_iff,
    cmpNat_lt_iff, cmpNat_eq_iff, cmpNat_lt_iff, cmpNat_eq_iff,
    cmpNat_lt_iff, cmpNat_eq_iff]

theorem cmpParsed_lt_trans {a b c : Parsed} (h1 : cmpParsed a b = .lt)
    (h2 : cmpParsed b c = .lt) : cmpParsed a c = .lt := by
  rw [cmpParsed_lt_iff] at h1 h2 ⊢
  rcases h1 with h1 | ⟨e1, h1⟩ <;> rcases h2 with h2 | ⟨e2, h2⟩
  · exact Or.inl (by omega)
  · exact Or.inl (by omega)
  · exact Or.inl (by omega)
  · refine Or.inr ⟨by omega, ?_⟩
    rcases h1 with h1 | ⟨f1, h1⟩ <;> rcases h2 with h2 | ⟨f2, h2⟩
    · exact Or.inl (by omega)
    · exact Or.inl (by omega)
    · exact Or.inl (by omega)
    · refine Or.inr ⟨by omega, ?_⟩
      rcases h1 with h1 | ⟨g1, h1⟩ <;> rcases h2 with h2 | ⟨g2, h2⟩
      · exact Or.inl (by omega)
      · exact Or.inl (by omega)
      · exact Or.inl (by omega)
      · exact Or.inr ⟨by omega, cmpPre_lt_trans h1 h2⟩

/-! ## Parsing semantic versions

A faithful model of `parse` in `golang.org/x/mod/semver`: a version must
start with `v`, followed by dot-separated major/minor/patch numbers (minor
and patch optional, defaulting to `0`), an optional `-prerelease` and an
optional `+build` part.  Invalid strings parse to `none`; two invalid
strings compare equal and every invalid string is below every valid one.
-/

/-- Characters allowed in prerelease/build identifiers (`isIdentChar`). -/
def isIdentChar (c : Char) : Bool :=
  ('A' ≤ c && c ≤ 'Z') || ('a' ≤ c && c ≤ 'z') || ('0' ≤ c && c ≤ '9') || c = '-'

/-- ASCII digit test, as in the Go parser. -/
def isDigitChar (c : Char) : Bool := '0' ≤ c && c ≤ '9'

/-- Numeric value of a digit string. -/
def digitsToNat (acc : Nat) : List Char → Nat
  | [] => acc
  | c :: cs => digitsToNat (acc * 10 + (c.toNat - 48)) cs

/-- `parseInt` of the Go library: a nonempty run of digits with no leading
zero (unless the number is exactly `0`), returning its value and the rest. -/
def parseNumChars : List Char → Option (Nat × List Char)
  | [] => none
  | c :: cs =>
    if ¬ isDigitChar c then none
    else
      let ds := (c :: cs).takeWhile isDigitChar
      let rest := (c :: cs).dropWhile isDigitChar
      if 1 < ds.length ∧ c = '0' then none
      else some (digitsToNat 0 ds, rest)

/-- Classify one prerelease identifier (`isBadNum`/`isNum` of the Go parser):
empty identifiers and numeric identifiers with leading zeros are invalid. -/
def mkPreIdent : List Char → Option Ident
  | [] => none
  | c :: rest =>
    if (c :: rest).all isDigitChar then
      if c = '0' ∧ rest ≠ [] then none
      else some (.num (digitsToNat 0 (c :: rest)))
    else some (.alpha (String.mk (c :: rest)))

/-- Scan the prerelease part (`parsePrerelease`), just after the leading `-`
or a `.`: reads dot-separated identifiers until `+` or the end of input.
The first argument accumulates the current identifier in reverse. -/
def scanPre : List Char → List Char → Option (List Ident × List Char)
  | seg, [] => do
    let i ← mkPreIdent seg.reverse
    some ([i], [])
  | seg, c :: cs =>
    if c = '+' then do
      let i ← mkPreIdent seg.reverse
      some ([i], c :: cs)
    else if c = '.' then do
      let i ← mkPreIdent seg.reverse
      let (is, rest) ← scanPre [] cs
      some (i :: is, rest)
    else if isIdentChar c then scanPre (c :: seg) cs
    else none

/-- Scan the build part (`parseBuild`), just after the leading `+`:
dot-separated nonempty runs of identifier characters, to the end of input.
The flag records whether the current segment is nonempty. -/
def scanBuild : Bool → List Char → Bool
  | nonempty, [] => nonempty
  | nonempty, c :: cs =>
    if c = '.' then nonempty && scanBuild false cs
    else if isIdentChar c then scanBuild true cs
    else false

/-- Handle the input left after major/minor/patch and prerelease: either
nothing, or a valid `+build` part. -/
def finishParse (maj mnr pat : Nat) (pre : Option (List Ident)) :
    List Char → Option Parsed
  | [] => some ⟨maj, mnr, pat, pre⟩
  | '+' :: cs => if scanBuild false cs then some ⟨maj, mnr, pat, pre⟩ else none
  | _ => none

/-- `parse` of `golang.org/x/mod/semver`. -/
def parseSemver (v : String) : Option Parsed :=
  match v.data with
  | 'v' :: rest =>
    match parseNumChars rest with
    | none => none
    | some (maj, r1) =>
      match r1 with
      | [] => some ⟨maj, 0, 0, none⟩
      | '.' :: r1' =>
        match parseNumChars r1' with
        | none => none
        | some (mnr, r2) =>
          match r2 with
          | [] => some ⟨maj, mnr, 0, none⟩
          | '.' :: r2' =>
            match parseNumChars r2' with
            | none => none
            | some (pat, r3) =>
              match r3 with
              | '-' :: r3' =>
                match scanPre [] r3' with
                | none => none
                | some (ids, r4) => finishParse maj mnr pat (some ids) r4
              | _ => finishParse maj mnr pat none r3
          | _ => none
      | _ => none
  | _ => none

/-- `Compare` of `golang.org/x/mod/semver` on parse results: an invalid
version is below all valid ones, and all invalid versions are equal. -/
def keyCmp : Option Parsed → Option Parsed → Ordering
  | none, none => .eq
  | none, some _ => .lt
  | some _, none => .gt
  | some a, some b => cmpParsed a b

theorem keyCmp_eq_iff : ∀ {x y : Option Parsed}, keyCmp x y = .eq ↔ x = y
  | none, none => by simp [keyCmp]
  | none, some _ => by simp [keyCmp]
  | some _, none => by simp [keyCmp]
  | some a, some b => by
    rw [keyCmp, cmpParsed_eq_iff]
    simp

theorem keyCmp_swap (x y : Option Parsed) : keyCmp y x = (keyCmp x y).swap := by
  cases x <;> cases y <;> simp only [keyCmp, Ordering.swap]
  exact cmpParsed_swap _ _

theorem keyCmp_lt_trans : ∀ {x y z : Option Parsed},
    keyCmp x y = .lt → keyCmp y z = .lt → keyCmp x z = .lt
  | none, none, _ => fun h1 _ => by simp [keyCmp] at h1
  | none, some _, none => fun _ h2 => by simp [keyCmp] at h2
  | none, some _, some _ => fun _ _ => rfl
  | some _, none, _ => fun h1 _ => by simp [keyCmp] at h1
  | some _, some _, none => fun _ h2 => by simp [keyCmp] at h2
  | some _, some _, some _ => fun h1 h2 => cmpParsed_lt_trans h1 h2

/-- `semver.Compare` as an `Ordering`. -/
def scmpO (v w : String) : Ordering := keyCmp (parseSemver v) (parseSemver w)

/-- `semver.Compare`, returning `-1`, `0` or `+1` like the Go function. -/
def scmp (v w : String) : Int :=
  match scmpO v w with
  | .lt => -1
  | .eq => 0
  | .gt => 1

theorem scmp_lt_iff {v w : String} : scmp v w < 0 ↔ scmpO v w = .lt := by
  unfold scmp
  rcases h : scmpO v w <;> simp

theorem scmp_eq_iff {v w : String} : scmp v w = 0 ↔ scmpO v w = .eq := by
  unfold scmp
  rcases h : scmpO v w <;> simp

theorem scmp_nonneg_iff {v w : String} : 0 ≤ scmp v w ↔ scmpO v w ≠ .lt := by
  unfold scmp
  rcases h : scmpO v w <;> simp

theorem scmp_nonpos_iff {v w : String} : scmp v w ≤ 0 ↔ scmpO v w ≠ .gt := by
  unfold scmp
  rcases h : scmpO v w <;> simp

theorem scmpO_refl (v : String) : scmpO v v = .eq :=
  keyCmp_eq_iff.mpr rfl

theorem scmpO_swap (v w : String) : scmpO w v = (scmpO v w).swap := keyCmp_swap _ _

/-- The sort relation of `semver.Sort` (`ByVersion.Less`, non-strictly):
semver precedence first, Go string comparison to break ties. -/
def svLE (a b : String) : Prop :=
  scmpO a b = .lt ∨ (scmpO a b = .eq ∧ cmpList cmpChar a.data b.data ≠ .gt)

instance : DecidableRel svLE := fun a b =>
  decidable_of_iff
    (scmpO a b = .lt ∨ (scmpO a b = .eq ∧ cmpList cmpChar a.data b.data ≠ .gt))
    (by rw [svLE])

theorem cmpStr_eq_iff {a b : String} : cmpList cmpChar a.data b.data = .eq ↔ a = b := by
  rw [cmpList_eq_iff cmpChar (fun x y => cmpChar_eq_iff)]
  exact ⟨string_data_inj, fun h => h ▸ rfl⟩

instance : IsTotal String svLE := by
  constructor
  intro a b
  rcases h : scmpO a b with _ | _ | _
  · exact Or.inl (Or.inl h)
  · have hba : scmpO b a = .eq := by rw [scmpO_swap, h]; rfl
    rcases hs : cmpList cmpChar a.data b.data with _ | _ | _
    · exact Or.inl (Or.inr ⟨h, by simp [hs]⟩)
    · exact Or.inl (Or.inr ⟨h, by simp [hs]⟩)
    · refine Or.inr (Or.inr ⟨hba, ?_⟩)
      rw [cmpList_swap cmpChar cmpChar_swap, hs]
      simp [Ordering.swap]
  · have hba : scmpO b a = .lt := by rw [scmpO_swap, h]; rfl
    exact Or.inr (Or.inl hba)

instance : IsTrans String svLE := by
  constructor
  intro a b c hab hbc
  rcases hab with hab | ⟨hab, sab⟩ <;> rcases hbc with hbc | ⟨hbc, sbc⟩
  · exact Or.inl (keyCmp_lt_trans hab hbc)
  · have : parseSemver b = parseSemver c := keyCmp_eq_iff.mp hbc
    refine Or.inl ?_
    unfold scmpO at hab ⊢
    rw [← this]
    exact hab
  · have : parseSemver a = parseSemver b := keyCmp_eq_iff.mp hab
    refine Or.inl ?_
    unfold scmpO at hbc ⊢
    rw [this]
    exact hbc
  · have hac : scmpO a c = .eq := by
      have h1 : parseSemver a = parseSemver b := keyCmp_eq_iff.mp hab
      have h2 : parseSemver b = parseSemver c := keyCmp_eq_iff.mp hbc
      unfold scmpO
      rw [h1, h2]
      exact keyCmp_eq_iff.mpr rfl
    refine Or.inr ⟨hac, ?_⟩
    rcases h1 : cmpList cmpChar a.data b.data with _ | _ | _
    · rcases h2 : cmpList cmpChar b.data c.data with _ | _ | _
      · have := cmpList_lt_trans cmpChar (fun x y => cmpChar_eq_iff)
          (fun _ _ _ => cmpChar_lt_trans) _ _ _ h1 h2
        simp [this]
      · have : b = c := cmpStr_eq_iff.mp h2
        rw [← this, h1]
        simp
      · exact absurd h2 sbc
    · have : a = b := cmpStr_eq_iff.mp h1
      rw [this]
      exact sbc
    · exact absurd h1 sab

/-! ## The registry data model

Translated from `superchain/superchain.go`.  The `Address` type is defined
elsewhere in the repository; everything else is modelled line by line from
the provided source file.
-/

/-- Modelled from the spec: the deployed-address type `Address` is declared in
this repository outside the provided source file.  The spec treats it as an
opaque value with a distinguished zero value (the Go zero value of a 20-byte
array), so we model it as a wrapped natural number whose zero value is
`zeroAddress`. -/
structure Address where
  val : Nat
deriving DecidableEq, Repr

/-- The Go zero value of `Address`. -/
def zeroAddress : Address := ⟨0⟩

/-- `AddressSet` is `map[string]Address`, keyed by semantic version.  Go maps
are modelled as association lists with duplicate-free keys; key-iteration
order is irrelevant because every use either sorts with a total order or
performs an order-independent lookup. -/
abbrev AddressSet := List (String × Address)

/-- The key set of an `AddressSet` (Go `maps.Keys`). -/
def AddressSet.keyList (a : AddressSet) : List String := a.map Prod.fst

/-- `VersionedContract` represents a contract that has a semantic version. -/
structure VersionedContract where
  Version : String
  Addr : Address
deriving DecidableEq, Repr

/-- The Go zero value `VersionedContract{}`. -/
def zeroVC : VersionedContract := ⟨"", zeroAddress⟩

/-- Go `"v" + s`. -/
def vPrepend (s : String) : String := ⟨'v' :: s.data⟩

/-- Go `strings.HasPrefix(s, "v")`. -/
def hasV (s : String) : Bool :=
  match s.data with
  | 'v' :: _ => true
  | _ => false

/-- Go `strings.TrimPrefix(s, "v")`. -/
def trimV (s : String) : String :=
  match s.data with
  | 'v' :: rest => ⟨rest⟩
  | _ => s

/-- `canonicalizeSemver` ensures that the version string has a `v` prefix. -/
def canonicalizeSemver (version : String) : String :=
  if ¬ hasV version then vPrepend version else version

/-- `AddressSet.Get` handles getting semantic versions from the set whether
or not the key or the stored entries carry the `v` prefix: the `v`-stripped
key is looked up first, then the `v`-prefixed key; a missed lookup yields
the zero value of `Address`, as in Go. -/
def AddressSet.Get (a : AddressSet) (key : String) : Address :=
  let key := if ¬ hasV key then vPrepend key else key
  match List.lookup (trimV key) a with
  | some addr => addr
  | none => (List.lookup key a).getD zeroAddress

/-- `AddressSet.Versions` returns the list of semantic versions of a
contract: every key canonicalized, then sorted by `semver.Sort` (semver
precedence with Go string order breaking ties). -/
def AddressSet.Versions (a : AddressSet) : List String :=
  List.insertionSort svLE (a.keyList.map canonicalizeSemver)

/-- The two failures of `resolve`, by their `fmt.Errorf` messages. -/
inductive ResolveError where
  | EmptySet
  | Unresolvable
deriving DecidableEq, Repr

/-- The Go error message carried by each `resolve` failure. -/
def ResolveError.message : ResolveError → String
  | .EmptySet => "no implementations found"
  | .Unresolvable => "cannot resolve semver"

/-- The loop of `resolve`: scan the sorted version keys in ascending order;
every key comparing `>=` to the target overwrites `out`, and an exact match
stops the scan immediately. -/
def resolveScan (set : AddressSet) (version : String) :
    List String → VersionedContract → VersionedContract
  | [], out => out
  | k :: ks, out =>
    let res := scmp k version
    if 0 ≤ res then
      if res = 0 then ⟨k, set.Get k⟩
      else resolveScan set version ks ⟨k, set.Get k⟩
    else resolveScan set version ks out

/-- `resolve` returns a `VersionedContract` that matches the passed-in semver
version given a set of addresses, paired with the Go error result. -/
def resolve (set : AddressSet) (version : String) :
    VersionedContract × Option ResolveError :=
  let version := canonicalizeSemver version
  let keys := set.Versions
  if keys.length = 0 then (zeroVC, some .EmptySet)
  else
    let out := resolveScan set version keys zeroVC
    if out = zeroVC then (zeroVC, some .Unresolvable) else (out, none)

/-- `ContractVersions` represents the desired semantic version of the
contracts in the superchain. -/
structure ContractVersions where
  L1CrossDomainMessenger : String
  L1ERC721Bridge : String
  L1StandardBridge : String
  L2OutputOracle : String
  OptimismMintableERC20Factory : String
  OptimismPortal : String
  SystemConfig : String
deriving DecidableEq, Repr

/-- `ContractImplementations` represents a set of contract implementations on
a given network, one `AddressSet` per role. -/
structure ContractImplementations where
  L1CrossDomainMessenger : AddressSet
  L1ERC721Bridge : AddressSet
  L1StandardBridge : AddressSet
  L2OutputOracle : AddressSet
  OptimismMintableERC20Factory : AddressSet
  OptimismPortal : AddressSet
  SystemConfig : AddressSet
deriving DecidableEq, Repr

/-- `ImplementationList` represents the set of implementation contracts to be
used together for a network. -/
structure ImplementationList where
  L1CrossDomainMessenger : VersionedContract
  L1ERC721Bridge : VersionedContract
  L1StandardBridge : VersionedContract
  L2OutputOracle : VersionedContract
  OptimismMintableERC20Factory : VersionedContract
  OptimismPortal : VersionedContract
  SystemConfig : VersionedContract
deriving DecidableEq, Repr

/-- The Go zero value `ImplementationList{}`
(`var implementations ImplementationList`). -/
def zeroImplementationList : ImplementationList :=
  ⟨zeroVC, zeroVC, zeroVC, zeroVC, zeroVC, zeroVC, zeroVC⟩

/-- A failed role resolution: the role name written into the wrapping
`fmt.Errorf("<role>: %w", err)` plus the wrapped `resolve` failure. -/
structure RoleError where
  role : String
  cause : ResolveError
deriving DecidableEq, Repr

/-- `ContractImplementations.Resolve` resolves every role in the fixed source
order, assigning into the result struct and returning early with a wrapping
error on the first failure, exactly as the Go code does. -/
def ContractImplementations.Resolve (c : ContractImplementations)
    (versions : ContractVersions) : ImplementationList × Option RoleError :=
  let r1 := resolve c.L1CrossDomainMessenger versions.L1CrossDomainMessenger
  let i1 := { zeroImplementationList with L1CrossDomainMessenger := r1.1 }
  match r1.2 with
  | some e => (i1, some ⟨"L1CrossDomainMessenger", e⟩)
  | none =>
    let r2 := resolve c.L1ERC721Bridge versions.L1ERC721Bridge
    let i2 := { i1 with L1ERC721Bridge := r2.1 }
    match r2.2 with
    | some e => (i2, some ⟨"L1ERC721Bridge", e⟩)
    | none =>
      let r3 := resolve c.L1StandardBridge versions.L1StandardBridge
      let i3 := { i2 with L1StandardBridge := r3.1 }
      match r3.2 with
      | some e => (i3, some ⟨"L1StandardBridge", e⟩)
      | none =>
        let r4 := resolve c.L2OutputOracle versions.L2OutputOracle
        let i4 := { i3 with L2OutputOracle := r4.1 }
        match r4.2 with
        | some e => (i4, some ⟨"L2OutputOracle", e⟩)
        | none =>
          let r5 := resolve c.OptimismMintableERC20Factory versions.OptimismMintableERC20Factory
          let i5 := { i4 with OptimismMintableERC20Factory := r5.1 }
          match r5.2 with
          | some e => (i5, some ⟨"OptimismMintableERC20Factory", e⟩)
          | none =>
            let r6 := resolve c.OptimismPortal versions.OptimismPortal
            let i6 := { i5 with OptimismPortal := r6.1 }
            match r6.2 with
            | some e => (i6, some ⟨"OptimismPortal", e⟩)
            | none =>
              let r7 := resolve c.SystemConfig versions.SystemConfig
              let i7 := { i6 with SystemConfig := r7.1 }
              match r7.2 with
              | some e => (i7, some ⟨"SystemConfig", e⟩)
              | none => (i7, none)

/-- Write one key/address pair into a map (`dst[k] = v`): replace the entry
if the key is present, append it otherwise. -/
def setInsert : AddressSet → String → Address → AddressSet
  | [], k, v => [(k, v)]
  | p :: rest, k, v => if p.1 = k then (k, v) :: rest else p :: setInsert rest k v

/-- `maps.Copy(dst, src)`: write every entry of `src` into `dst`. -/
def copySemverMap (dst src : AddressSet) : AddressSet :=
  src.foldl (fun d p => setInsert d p.1 p.2) dst

/-- `ContractImplementations.Merge` combines two `ContractImplementations`
into one; conflicting keys are overwritten by the argument.  Go mutates the
receiver in place; the model returns the merged receiver. -/
def ContractImplementations.Merge (c other : ContractImplementations) :
    ContractImplementations where
  L1CrossDomainMessenger := copySemverMap c.L1CrossDomainMessenger other.L1CrossDomainMessenger
  L1ERC721Bridge := copySemverMap c.L1ERC721Bridge other.L1ERC721Bridge
  L1StandardBridge := copySemverMap c.L1StandardBridge other.L1StandardBridge
  L2OutputOracle := copySemverMap c.L2OutputOracle other.L2OutputOracle
  OptimismMintableERC20Factory :=
    copySemverMap c.OptimismMintableERC20Factory other.OptimismMintableERC20Factory
  OptimismPortal := copySemverMap c.OptimismPortal other.OptimismPortal
  SystemConfig := copySemverMap c.SystemConfig other.SystemConfig

/-- The per-role `resolve` outcomes of a bundle resolution, in the fixed
order the source checks them.  This is the specification-side view used to
state fail-fast error reporting. -/
def roleResults (c : ContractImplementations) (v : ContractVersions) :
    List (String × Option ResolveError) :=
  [("L1CrossDomainMessenger", (resolve c.L1CrossDomainMessenger v.L1CrossDomainMessenger).2),
   ("L1ERC721Bridge", (resolve c.L1ERC721Bridge v.L1ERC721Bridge).2),
   ("L1StandardBridge", (resolve c.L1StandardBridge v.L1StandardBridge).2),
   ("L2OutputOracle", (resolve c.L2OutputOracle v.L2OutputOracle).2),
   ("OptimismMintableERC20Factory",
     (resolve c.OptimismMintableERC20Factory v.OptimismMintableERC20Factory).2),
   ("OptimismPortal", (resolve c.OptimismPortal v.OptimismPortal).2),
   ("SystemConfig", (resolve c.SystemConfig v.SystemConfig).2)]

/-- The first failing role in the fixed iteration order, with its wrapped
cause — the error `ContractImplementations.Resolve` is specified to report. -/
def firstRoleFailure (c : ContractImplementations) (v : ContractVersions) :
    Option RoleError :=
  ((roleResults c v).filterMap fun p => p.2.map (fun e => RoleError.mk p.1 e)).head?

/-! ## Supporting lemmas -/

theorem hasV_vPrepend (s : String) : hasV (vPrepend s) = true := rfl

theorem hasV_canon (s : String) : hasV (canonicalizeSemver s) = true := by
  unfold canonicalizeSemver
  split
  · exact hasV_vPrepend s
  · rename_i h
    simpa using h

theorem canon_idem (s : String) :
    canonicalizeSemver (canonicalizeSemver s) = canonicalizeSemver s := by
  have h := hasV_canon s
  generalize canonicalizeSemver s = c at h ⊢
  unfold canonicalizeSemver
  simp [h]

theorem ne_empty_of_hasV {s : String} (h : hasV s = true) : s ≠ "" := by
  intro he
  rw [he] at h
  simp [hasV] at h

theorem versions_length (a : AddressSet) : a.Versions.length = a.length := by
  unfold AddressSet.Versions
  rw [(List.perm_insertionSort svLE _).length_eq]
  simp [AddressSet.keyList]

theorem mem_versions {a : AddressSet} {k : String} :
    k ∈ a.Versions ↔ ∃ p ∈ a, k = canonicalizeSemver p.1 := by
  unfold AddressSet.Versions
  rw [List.mem_insertionSort]
  simp only [List.mem_map, AddressSet.keyList]
  constructor
  · rintro ⟨s, ⟨p, hp, rfl⟩, rfl⟩
    exact ⟨p, hp, rfl⟩
  · rintro ⟨p, hp, rfl⟩
    exact ⟨p.1, ⟨p, hp, rfl⟩, rfl⟩

theorem versions_sorted (a : AddressSet) : List.Pairwise svLE a.Versions :=
  List.sorted_insertionSort svLE _

theorem versions_hasV {a : AddressSet} {k : String} (h : k ∈ a.Versions) :
    hasV k = true := by
  rcases mem_versions.mp h with ⟨p, _, rfl⟩
  exact hasV_canon p.1

/-- Structure of one pass of the `resolve` loop: either no key qualified and
the accumulator is returned unchanged, or the result is the versioned
contract of some qualifying key. -/
theorem resolveScan_cases (a : AddressSet) (t : String) :
    ∀ (ks : List String) (out : VersionedContract),
      (resolveScan a t ks out = out ∧ ∀ k ∈ ks, scmp k t < 0) ∨
      (∃ r ∈ ks, 0 ≤ scmp r t ∧ resolveScan a t ks out = ⟨r, a.Get r⟩)
  | [], out => Or.inl ⟨rfl, by simp⟩
  | k :: ks, out => by
    rw [resolveScan]
    by_cases h0 : 0 ≤ scmp k t
    · rw [if_pos h0]
      by_cases he : scmp k t = 0
      · rw [if_pos he]
        exact Or.inr ⟨k, by simp, h0, rfl⟩
      · rw [if_neg he]
        rcases resolveScan_cases a t ks ⟨k, a.Get k⟩ with ⟨hr, _⟩ | ⟨r, hr, h1, h2⟩
        · exact Or.inr ⟨k, by simp, h0, hr⟩
        · exact Or.inr ⟨r, by simp [hr], h1, h2⟩
    · rw [if_neg h0]
      rcases resolveScan_cases a t ks out with ⟨hr, hall⟩ | ⟨r, hr, h1, h2⟩
      · refine Or.inl ⟨hr, ?_⟩
        intro x hx
        rcases List.mem_cons.mp hx with rfl | hx
        · omega
        · exact hall x hx
      · exact Or.inr ⟨r, by simp [hr], h1, h2⟩

/-- If some key compares exactly equal to the target, the scan stops at the
first such key (in list order) and returns it, whatever the accumulator. -/
theorem resolveScan_exact (a : AddressSet) (t : String) :
    ∀ (ks : List String) (k₀ : String),
      ks.find? (fun k => scmp k t == 0) = some k₀ →
      ∀ out, resolveScan a t ks out = ⟨k₀, a.Get k₀⟩
  | [], k₀ => by simp
  | k :: ks, k₀ => by
    intro hf out
    rw [List.find?_cons] at hf
    rw [resolveScan]
    by_cases he : scmp k t = 0
    · have : (scmp k t == 0) = true := by simpa using he
      rw [this] at hf
      rw [if_pos (by omega), if_pos he]
      have hk : k = k₀ := by simpa using hf
      rw [hk]
    · have : (scmp k t == 0) = false := by simpa using he
      rw [this] at hf
      by_cases h0 : 0 ≤ scmp k t
      · rw [if_pos h0, if_neg he]
        exact resolveScan_exact a t ks k₀ hf _
      · rw [if_neg h0]
        exact resolveScan_exact a t ks k₀ hf _

/-- If no key compares exactly equal to the target, the scan returns the
last qualifying key of the list (each qualifying key overwrites the
accumulator), or the accumulator untouched when none qualifies. -/
theorem resolveScan_no_exact (a : AddressSet) (t : String) :
    ∀ (ks : List String), (∀ k ∈ ks, scmp k t ≠ 0) →
      ∀ out,
        resolveScan a t ks out =
          match (ks.filter fun k => decide (0 ≤ scmp k t)).getLast? with
          | none => out
          | some r => ⟨r, a.Get r⟩
  | [], _ => by simp [resolveScan]
  | k :: ks, hne => by
    intro out
    have hk : scmp k t ≠ 0 := hne k (by simp)
    have hrest : ∀ x ∈ ks, scmp x t ≠ 0 := fun x hx => hne x (by simp [hx])
    rw [resolveScan, List.filter_cons]
    by_cases h0 : 0 ≤ scmp k t
    · rw [if_pos h0, if_neg hk]
      rw [if_pos (by simpa using h0)]
      rw [resolveScan_no_exact a t ks hrest ⟨k, a.Get k⟩]
      rcases hl : (ks.filter fun x => decide (0 ≤ scmp x t)).getLast? with _ | r
      · have : ks.filter (fun x => decide (0 ≤ scmp x t)) = [] :=
          List.getLast?_eq_none_iff.mp hl
        rw [this]
        rfl
      · have hne2 : ks.filter (fun x => decide (0 ≤ scmp x t)) ≠ [] := by
          intro hemp
          rw [hemp] at hl
          simp at hl
        rcases hfe : ks.filter (fun x => decide (0 ≤ scmp x t)) with _ | ⟨f, fs⟩
        · exact absurd hfe hne2
        · rw [hfe] at hl
          rw [List.getLast?_cons_cons, hl]
    · rw [if_neg h0, if_neg (by simpa using h0)]
      exact resolveScan_no_exact a t ks hrest out

theorem getLast?_mem : ∀ {l : List α} {m : α}, l.getLast? = some m → m ∈ l
  | [], m => by simp
  | [a], m => by
    intro h
    simp at h
    simp [h]
  | a :: b :: l, m => by
    intro h
    rw [List.getLast?_cons_cons] at h
    have := getLast?_mem h
    simp [this]

/-- In a `svLE`-sorted list every element is below (or is) the last one. -/
theorem sorted_getLast_max : ∀ {l : List String}, List.Pairwise svLE l →
    ∀ (m : String), l.getLast? = some m → ∀ x ∈ l, x = m ∨ svLE x m
  | [], _ => by simp
  | [a], _ => by
    intro m hm x hx
    simp at hm hx
    simp [hm, hx]
  | a :: b :: l, hs => by
    intro m hm x hx
    rw [List.getLast?_cons_cons] at hm
    have hm_mem : m ∈ b :: l := getLast?_mem hm
    rcases List.mem_cons.mp hx with rfl | hx
    · exact Or.inr ((List.pairwise_cons.mp hs).1 m hm_mem)
    · exact sorted_getLast_max (List.pairwise_cons.mp hs).2 m hm x hx

theorem lookup_cons_eq (a k : String) (v : Address) (l : AddressSet) :
    List.lookup a ((k, v) :: l) = if a = k then some v else List.lookup a l := by
  rw [List.lookup]
  by_cases h : a = k
  · have hb : (a == k) = true := by simpa using h
    rw [hb, if_pos h]
  · have hb : (a == k) = false := by simpa using h
    rw [hb, if_neg h]

theorem lookup_setInsert (k k' : String) (v : Address) :
    ∀ (a : AddressSet),
      List.lookup k' (setInsert a k v) =
        if k' = k then some v else List.lookup k' a
  | [] => by rw [setInsert, lookup_cons_eq]
  | (pk, pv) :: rest => by
    rw [setInsert]
    simp only
    by_cases hp : pk = k
    · subst hp
      rw [if_pos rfl]
      by_cases h : k' = pk
      · simp [lookup_cons_eq, h]
      · simp [lookup_cons_eq, h]
    · rw [if_neg hp, lookup_cons_eq]
      by_cases h : k' = pk
      · have hk : ¬ k' = k := fun hc => hp (h.symm.trans hc)
        simp [lookup_cons_eq, h, hk, hp]
      · rw [if_neg h, lookup_setInsert k k' v rest, lookup_cons_eq, if_neg h]

theorem lookup_not_mem_keyList {k : String} :
    ∀ {a : AddressSet}, k ∉ AddressSet.keyList a → List.lookup k a = none
  | [] => fun _ => rfl
  | (pk, pv) :: rest => by
    intro h
    simp [AddressSet.keyList] at h
    rw [lookup_cons_eq, if_neg h.1]
    exact lookup_not_mem_keyList (by simp [AddressSet.keyList, h.2])

/-- Lookup after `maps.Copy(dst, src)`: the source wins on keys it contains,
other keys keep the destination's binding. -/
theorem lookup_copySemverMap (k : String) :
    ∀ (src : AddressSet), (AddressSet.keyList src).Nodup → ∀ (dst : AddressSet),
      List.lookup k (copySemverMap dst src) =
        (List.lookup k src).or (List.lookup k dst)
  | [], _ => by simp [copySemverMap]
  | (pk, pv) :: src', hnd => by
    intro dst
    have hnd2 := hnd
    simp only [AddressSet.keyList, List.map_cons, List.nodup_cons] at hnd2
    have hstep : copySemverMap dst ((pk, pv) :: src') =
        copySemverMap (setInsert dst pk pv) src' := rfl
    rw [hstep, lookup_copySemverMap k src' hnd2.2 _, lookup_setInsert,
      lookup_cons_eq]
    by_cases h : k = pk
    · have hnotin : k ∉ AddressSet.keyList src' := by
        rw [h]
        simpa [AddressSet.keyList] using hnd2.1
      rw [lookup_not_mem_keyList hnotin, if_pos h, if_pos h]
      rfl
    · rw [if_neg h, if_neg h]

theorem trimV_vPrepend (s : String) : trimV (vPrepend s) = s := by
  cases s
  rfl

theorem vPrepend_ne (s : String) : s ≠ vPrepend s := by
  intro h
  have hlen : s.data.length = (vPrepend s).data.length := by rw [← h]
  simp [vPrepend] at hlen

theorem get_eq (a : AddressSet) (key : String) :
    AddressSet.Get a key =
      match List.lookup (trimV (canonicalizeSemver key)) a with
      | some addr => addr
      | none => (List.lookup (canonicalizeSemver key) a).getD zeroAddress := rfl

theorem canon_of_not_hasV {s : String} (h : hasV s = false) :
    canonicalizeSemver s = vPrepend s := by
  unfold canonicalizeSemver
  rw [h]
  simp

theorem canon_of_hasV {s : String} (h : hasV s = true) :
    canonicalizeSemver s = s := by
  unfold canonicalizeSemver
  rw [h]
  simp

theorem vc_ne_zero {k : String} (h : hasV k = true) (x : Address) :
    VersionedContract.mk k x ≠ zeroVC := by
  intro he
  exact ne_empty_of_hasV h (congrArg VersionedContract.Version he)

theorem resolve_def (set : AddressSet) (version : String) :
    resolve set version =
      if set.Versions.length = 0 then (zeroVC, some .EmptySet)
      else if resolveScan set (canonicalizeSemver version) set.Versions zeroVC = zeroVC
      then (zeroVC, some .Unresolvable)
      else (resolveScan set (canonicalizeSemver version) set.Versions zeroVC, none) := rfl

/-! ## The claims -/

/-- The three-version set of the spec's resolution examples,
`{1.0.0: A, 2.0.0: B, 3.0.0: C}` with `A=⟨1⟩`, `B=⟨2⟩`, `C=⟨3⟩`. -/
def exampleSet : AddressSet := [("1.0.0", ⟨1⟩), ("2.0.0", ⟨2⟩), ("3.0.0", ⟨3⟩)]

/-- A set storing two distinct keys (`"1"` and `"1.0.0"`) whose canonical
forms are semver-equal but string-different. -/
def dualSpellingSet : AddressSet := [("1", ⟨1⟩), ("1.0.0", ⟨2⟩)]

/-- C2: the claim states `resolve exampleSet "1.5.0" = (2.0.0, B)`; in fact
the ascending scan keeps overwriting with every larger qualifying version,
so it returns `(v3.0.0, C)`, not `(v2.0.0, B)`. -/
theorem C2_counterexample :
    (resolve exampleSet "1.5.0").1 ≠ ⟨"v2.0.0", ⟨2⟩⟩ ∧
    (resolve exampleSet "1.5.0").1.Addr ≠ ⟨2⟩ ∧
    resolve exampleSet "1.5.0" = (⟨"v3.0.0", ⟨3⟩⟩, none) := by
  refine ⟨by decide, by decide, by decide⟩

/-- C2 (amended): on `{1.0.0: A, 2.0.0: B, 3.0.0: C}`, resolve with target
`"1.5.0"` returns the pair `(v3.0.0, C)` — the highest version `>=` the
target, not the lowest — and resolve with target `"0.5.0"` also returns
`(v3.0.0, C)`. -/
theorem C2_resolve_highest_example :
    resolve exampleSet "1.5.0" = (⟨"v3.0.0", ⟨3⟩⟩, none) ∧
    resolve exampleSet "0.5.0" = (⟨"v3.0.0", ⟨3⟩⟩, none) := by
  refine ⟨by decide, by decide⟩

/-- C1: the claim states that an entry whose canonicalized version equals
the canonicalized target is returned with its address.  False:
`dualSpellingSet` stores `"1.0.0" ↦ ⟨2⟩`, whose canonicalization `"v1.0.0"`
equals the canonicalized target, but the scan stops earlier on the
semver-equal key `"v1"` and returns `("v1", ⟨1⟩)`. -/
theorem C1_counterexample :
    (∃ p ∈ dualSpellingSet,
      canonicalizeSemver p.1 = canonicalizeSemver "1.0.0" ∧ p.2 = ⟨2⟩) ∧
    resolve dualSpellingSet "1.0.0" = (⟨"v1", ⟨1⟩⟩, none) ∧
    (resolve dualSpellingSet "1.0.0").1 ≠ ⟨canonicalizeSemver "1.0.0", ⟨2⟩⟩ := by
  refine ⟨by decide, by decide, by decide⟩

/-- C8: the claim states `Get` returns a `found=false` boolean so that a
stored zero address can be distinguished from an absent entry.  False: `Get`
returns only an `Address`, and a set storing the zero address is
indistinguishable through `Get` from one storing nothing. -/
theorem C8_counterexample :
    AddressSet.Get [("1.0.0", zeroAddress)] "1.0.0" =
      AddressSet.Get ([] : AddressSet) "1.0.0" ∧
    AddressSet.Get [("1.0.0", zeroAddress)] "1.0.0" = zeroAddress := by
  refine ⟨by decide, by decide⟩

/-- C8 (amended): for every `AddressSet` and key whose canonicalized form is
stored under neither the prefix-stripped nor the prefixed spelling, `Get`
returns the zero address; `Get` returns no boolean, so a stored zero address
is not distinguishable from an absent entry through `Get`. -/
theorem C8_get_absent_zero (a : AddressSet) (key : String)
    (h1 : List.lookup (trimV (canonicalizeSemver key)) a = none)
    (h2 : List.lookup (canonicalizeSemver key) a = none) :
    AddressSet.Get a key = zeroAddress := by
  rw [get_eq, h1, h2]
  rfl

/-- Witness for `C8_get_absent_zero` at a concrete set and key. -/
theorem C8_get_absent_zero_witness :
    AddressSet.Get exampleSet "9.0.0" = zeroAddress :=
  C8_get_absent_zero exampleSet "9.0.0" (by decide) (by decide)

/-- C10: when both the un-prefixed and the `v`-prefixed spelling of a version
are stored with different addresses, `Get` returns the address stored under
the un-prefixed key for either query form: the prefix-stripped lookup takes
precedence over the prefixed fallback. -/
theorem C10_unprefixed_precedence (a : AddressSet) (s : String) (A B : Address)
    (hs : hasV s = false) (hA : List.lookup s a = some A)
    (_hB : List.lookup (vPrepend s) a = some B) (_hAB : A ≠ B) :
    AddressSet.Get a s = A ∧ AddressSet.Get a (vPrepend s) = A := by
  constructor
  · rw [get_eq, canon_of_not_hasV hs, trimV_vPrepend, hA]
  · rw [get_eq, canon_of_hasV (hasV_vPrepend s), trimV_vPrepend, hA]

/-- Witness for `C10_unprefixed_precedence` on a set storing both spellings
of `1.0.0` with different addresses. -/
theorem C10_unprefixed_precedence_witness :
    AddressSet.Get [("1.0.0", ⟨1⟩), ("v1.0.0", ⟨2⟩)] "1.0.0" = ⟨1⟩ ∧
    AddressSet.Get [("1.0.0", ⟨1⟩), ("v1.0.0", ⟨2⟩)] (vPrepend "1.0.0") = ⟨1⟩ :=
  C10_unprefixed_precedence [("1.0.0", ⟨1⟩), ("v1.0.0", ⟨2⟩)] "1.0.0" ⟨1⟩ ⟨2⟩
    (by decide) (by decide) (by decide) (by decide)

/-- C7: the claim states that an entry inserted under either spelling of `s`
is found by both query forms.  False when the set already stores the
un-prefixed spelling: inserting `("v1.0.0", ⟨2⟩)` into `{"1.0.0": ⟨1⟩}`
leaves both queries returning `⟨1⟩`, never the inserted `⟨2⟩`. -/
theorem C7_counterexample :
    AddressSet.Get (setInsert [("1.0.0", ⟨1⟩)] (vPrepend "1.0.0") ⟨2⟩) "1.0.0" ≠ ⟨2⟩ ∧
    AddressSet.Get (setInsert [("1.0.0", ⟨1⟩)] (vPrepend "1.0.0") ⟨2⟩)
      (vPrepend "1.0.0") ≠ ⟨2⟩ ∧
    AddressSet.Get (setInsert [("1.0.0", ⟨1⟩)] (vPrepend "1.0.0") ⟨2⟩) "1.0.0" = ⟨1⟩ := by
  refine ⟨by decide, by decide, by decide⟩

/-- C7 (amended): `Get s` and `Get ("v"+s)` always agree; an entry inserted
under the un-prefixed spelling is found by both query forms; an entry
inserted under the `v`-prefixed spelling is found by both query forms
provided the un-prefixed spelling is not already stored (otherwise the
un-prefixed entry takes precedence). -/
theorem C7_get_prefix_insensitive (a : AddressSet) (s : String) (x : Address)
    (hs : hasV s = false) :
    AddressSet.Get a s = AddressSet.Get a (vPrepend s) ∧
    AddressSet.Get (setInsert a s x) s = x ∧
    AddressSet.Get (setInsert a s x) (vPrepend s) = x ∧
    (List.lookup s a = none →
      AddressSet.Get (setInsert a (vPrepend s) x) s = x ∧
      AddressSet.Get (setInsert a (vPrepend s) x) (vPrepend s) = x) := by
  have hc : canonicalizeSemver s = vPrepend s := canon_of_not_hasV hs
  have hcv : canonicalizeSemver (vPrepend s) = vPrepend s :=
    canon_of_hasV (hasV_vPrepend s)
  refine ⟨?_, ?_, ?_, ?_⟩
  · rw [get_eq, get_eq, hc, hcv]
  · rw [get_eq, hc, trimV_vPrepend, lookup_setInsert, if_pos rfl]
  · rw [get_eq, hcv, trimV_vPrepend, lookup_setInsert, if_pos rfl]
  · intro hnone
    have hne : ¬ s = vPrepend s := vPrepend_ne s
    constructor
    · rw [get_eq, hc, trimV_vPrepend, lookup_setInsert, if_neg hne, hnone,
        lookup_setInsert, if_pos rfl]
      rfl
    · rw [get_eq, hcv, trimV_vPrepend, lookup_setInsert, if_neg hne, hnone,
        lookup_setInsert, if_pos rfl]
      rfl

/-- Witness for `C7_get_prefix_insensitive` at a concrete set, version and
address. -/
theorem C7_get_prefix_insensitive_witness :
    AddressSet.Get exampleSet "2.0.0" = AddressSet.Get exampleSet (vPrepend "2.0.0") ∧
    AddressSet.Get (setInsert exampleSet "2.0.0" ⟨9⟩) "2.0.0" = ⟨9⟩ ∧
    AddressSet.Get (setInsert exampleSet "2.0.0" ⟨9⟩) (vPrepend "2.0.0") = ⟨9⟩ ∧
    (List.lookup "2.0.0" exampleSet = none →
      AddressSet.Get (setInsert exampleSet (vPrepend "2.0.0") ⟨9⟩) "2.0.0" = ⟨9⟩ ∧
      AddressSet.Get (setInsert exampleSet (vPrepend "2.0.0") ⟨9⟩) (vPrepend "2.0.0") = ⟨9⟩) :=
  C7_get_prefix_insensitive exampleSet "2.0.0" ⟨9⟩ (by decide)

/-- C4: `resolve` fails with `EmptySet` ("no implementations found") exactly
on a set with zero entries, fails with `Unresolvable` ("cannot resolve
semver") exactly when the set is non-empty but no stored version
(canonicalized) compares `>=` the canonicalized target, and succeeds in all
other cases. -/
theorem C4_resolve_error_characterization (a : AddressSet) (t : String) :
    ((resolve a t).2 = some .EmptySet ↔ a = []) ∧
    ((resolve a t).2 = some .Unresolvable ↔
      (a ≠ [] ∧ ∀ p ∈ a, scmp (canonicalizeSemver p.1) (canonicalizeSemver t) < 0)) ∧
    ((resolve a t).2 = none ↔
      (a ≠ [] ∧ ∃ p ∈ a, 0 ≤ scmp (canonicalizeSemver p.1) (canonicalizeSemver t))) ∧
    ResolveError.EmptySet.message = "no implementations found" ∧
    ResolveError.Unresolvable.message = "cannot resolve semver" := by
  rw [resolve_def]
  by_cases hemp : a = []
  · subst hemp
    simp [AddressSet.Versions, AddressSet.keyList, ResolveError.message]
  · have hlen : ¬ a.Versions.length = 0 := by
      rw [versions_length]
      simpa [List.length_eq_zero] using hemp
    rw [if_neg hlen]
    rcases resolveScan_cases a (canonicalizeSemver t) a.Versions zeroVC with
      ⟨hid, hall⟩ | ⟨r, hr, hq, heq⟩
    · rw [hid, if_pos rfl]
      refine ⟨iff_of_false (by simp) hemp, ?_, ?_, rfl, rfl⟩
      · exact iff_of_true rfl
          ⟨hemp, fun p hp => hall _ (mem_versions.mpr ⟨p, hp, rfl⟩)⟩
      · refine iff_of_false (by simp) ?_
        rintro ⟨-, p, hp, hple⟩
        have := hall _ (mem_versions.mpr ⟨p, hp, rfl⟩)
        omega
    · have hnz : resolveScan a (canonicalizeSemver t) a.Versions zeroVC ≠ zeroVC := by
        rw [heq]
        exact vc_ne_zero (versions_hasV hr) _
      rw [if_neg hnz]
      refine ⟨iff_of_false (by simp) hemp, ?_, ?_, rfl, rfl⟩
      · refine iff_of_false (by simp) ?_
        rintro ⟨-, hall⟩
        rcases mem_versions.mp hr with ⟨p, hp, hrp⟩
        have := hall p hp
        rw [← hrp] at this
        omega
      · refine iff_of_true rfl ⟨hemp, ?_⟩
        rcases mem_versions.mp hr with ⟨p, hp, hrp⟩
        refine ⟨p, hp, ?_⟩
        rw [← hrp]
        exact hq

/-- Witness for `C4_resolve_error_characterization` at a concrete set and
target. -/
theorem C4_resolve_error_characterization_witness :
    ((resolve exampleSet "4.0.0").2 = some .EmptySet ↔ exampleSet = []) ∧
    ((resolve exampleSet "4.0.0").2 = some .Unresolvable ↔
      (exampleSet ≠ [] ∧ ∀ p ∈ exampleSet,
        scmp (canonicalizeSemver p.1) (canonicalizeSemver "4.0.0") < 0)) ∧
    ((resolve exampleSet "4.0.0").2 = none ↔
      (exampleSet ≠ [] ∧ ∃ p ∈ exampleSet,
        0 ≤ scmp (canonicalizeSemver p.1) (canonicalizeSemver "4.0.0"))) ∧
    ResolveError.EmptySet.message = "no implementations found" ∧
    ResolveError.Unresolvable.message = "cannot resolve semver" :=
  C4_resolve_error_characterization exampleSet "4.0.0"

/-- C9: whenever `resolve` succeeds, the `Version` field of the returned
`VersionedContract` is the canonicalization of some stored key (hence in
canonical `v`-prefixed form, fixed by `canonicalizeSemver`), even when the
matching key was stored without the `v` prefix. -/
theorem C9_resolve_version_canonical (a : AddressSet) (t : String)
    (vc : VersionedContract) (h : resolve a t = (vc, none)) :
    (∃ p ∈ a, vc.Version = canonicalizeSemver p.1) ∧
    canonicalizeSemver vc.Version = vc.Version := by
  rw [resolve_def] at h
  by_cases hlen : a.Versions.length = 0
  · rw [if_pos hlen] at h
    simp [Prod.ext_iff] at h
  · rw [if_neg hlen] at h
    by_cases hz : resolveScan a (canonicalizeSemver t) a.Versions zeroVC = zeroVC
    · rw [if_pos hz] at h
      simp [Prod.ext_iff] at h
    · rw [if_neg hz] at h
      have hv : vc = resolveScan a (canonicalizeSemver t) a.Versions zeroVC := by
        have := congrArg Prod.fst h
        simpa using this.symm
      rcases resolveScan_cases a (canonicalizeSemver t) a.Versions zeroVC with
        ⟨hid, _⟩ | ⟨r, hr, _, heq⟩
      · exact absurd hid hz
      · rcases mem_versions.mp hr with ⟨p, hp, hrp⟩
        rw [heq] at hv
        constructor
        · refine ⟨p, hp, ?_⟩
          rw [hv]
          exact hrp
        · rw [hv]
          show canonicalizeSemver r = r
          rw [hrp, canon_idem]

/-- Witness for `C9_resolve_version_canonical`: resolving `"1.0.0"` against
a set keyed without the `v` prefix yields the canonical version `"v1.0.0"`. -/
theorem C9_resolve_version_canonical_witness :
    (∃ p ∈ exampleSet,
      (VersionedContract.mk "v1.0.0" ⟨1⟩).Version = canonicalizeSemver p.1) ∧
    canonicalizeSemver (VersionedContract.mk "v1.0.0" ⟨1⟩).Version =
      (VersionedContract.mk "v1.0.0" ⟨1⟩).Version :=
  C9_resolve_version_canonical exampleSet "1.0.0" ⟨"v1.0.0", ⟨1⟩⟩ (by decide)

/-- C1 (amended): for a non-empty set, if some sorted canonical version
compares semver-equal to the canonicalized target, `resolve` returns the
first such version in the sorted ascending order with its `Get` address
(the scan stops on it even when larger versions are present); otherwise, if
at least one stored version compares `>=` the target, `resolve` returns the
highest qualifying version (the last in sorted order, below no other
qualifier) with its `Get` address. -/
theorem C1_resolve_exact_or_highest (a : AddressSet) (t : String) (hne : a ≠ []) :
    (∀ k₀, a.Versions.find? (fun k => scmp k (canonicalizeSemver t) == 0) = some k₀ →
      resolve a t = (⟨k₀, a.Get k₀⟩, none)) ∧
    (a.Versions.find? (fun k => scmp k (canonicalizeSemver t) == 0) = none →
      ∀ k₁ ∈ a.Versions, 0 ≤ scmp k₁ (canonicalizeSemver t) →
      ∃ r ∈ a.Versions, 0 ≤ scmp r (canonicalizeSemver t) ∧
        resolve a t = (⟨r, a.Get r⟩, none) ∧
        ∀ k ∈ a.Versions, 0 ≤ scmp k (canonicalizeSemver t) → scmp k r ≤ 0) := by
  have hlen : ¬ a.Versions.length = 0 := by
    rw [versions_length]
    simpa [List.length_eq_zero] using hne
  constructor
  · intro k₀ hf
    have hsc := resolveScan_exact a (canonicalizeSemver t) a.Versions k₀ hf zeroVC
    have hmem : k₀ ∈ a.Versions := List.mem_of_find?_eq_some hf
    have hnz : resolveScan a (canonicalizeSemver t) a.Versions zeroVC ≠ zeroVC := by
      rw [hsc]
      exact vc_ne_zero (versions_hasV hmem) _
    rw [resolve_def, if_neg hlen, if_neg hnz, hsc]
  · intro hf k₁ hk₁ hq₁
    have hno : ∀ k ∈ a.Versions, scmp k (canonicalizeSemver t) ≠ 0 := by
      intro k hk
      have := List.find?_eq_none.mp hf k hk
      simpa using this
    have hfil : k₁ ∈ a.Versions.filter
        (fun k => decide (0 ≤ scmp k (canonicalizeSemver t))) :=
      List.mem_filter.mpr ⟨hk₁, by simpa using hq₁⟩
    rcases hgl : (a.Versions.filter
        (fun k => decide (0 ≤ scmp k (canonicalizeSemver t)))).getLast? with _ | r
    · rw [List.getLast?_eq_none_iff] at hgl
      rw [hgl] at hfil
      simp at hfil
    · have hrfil := getLast?_mem hgl
      have hrmem : r ∈ a.Versions := (List.mem_filter.mp hrfil).1
      have hrq : 0 ≤ scmp r (canonicalizeSemver t) := by
        simpa using (List.mem_filter.mp hrfil).2
      have hscan := resolveScan_no_exact a (canonicalizeSemver t) a.Versions hno zeroVC
      rw [hgl] at hscan
      have hnz : resolveScan a (canonicalizeSemver t) a.Versions zeroVC ≠ zeroVC := by
        rw [hscan]
        exact vc_ne_zero (versions_hasV hrmem) _
      refine ⟨r, hrmem, hrq, ?_, ?_⟩
      · rw [resolve_def, if_neg hlen, if_neg hnz, hscan]
      · intro k hk hkq
        have hkfil : k ∈ a.Versions.filter
            (fun k => decide (0 ≤ scmp k (canonicalizeSemver t))) :=
          List.mem_filter.mpr ⟨hk, by simpa using hkq⟩
        have hps := (versions_sorted a).filter
          (fun k => decide (0 ≤ scmp k (canonicalizeSemver t)))
        rcases sorted_getLast_max hps r hgl k hkfil with rfl | hle
        · have h0 : scmp k k = 0 := scmp_eq_iff.mpr (scmpO_refl k)
          omega
        · rcases hle with hlt | ⟨heq, _⟩
          · have := scmp_lt_iff.mpr hlt
            omega
          · have := scmp_eq_iff.mpr heq
            omega

/-- Witness for `C1_resolve_exact_or_highest`: on the dual-spelling set the
exact branch fires at the first semver-equal sorted key `"v1"`. -/
theorem C1_resolve_exact_or_highest_witness :
    resolve dualSpellingSet "1.0.0" =
      (⟨"v1", AddressSet.Get dualSpellingSet "v1"⟩, none) :=
  (C1_resolve_exact_or_highest dualSpellingSet "1.0.0" (by decide)).1 "v1" (by decide)

/-- A bundle whose first role resolves and whose second role has no
implementations, with one target version for every role. -/
def bundleImpls : ContractImplementations :=
  ⟨[("1.0.0", ⟨1⟩)], [], [], [], [], [], []⟩

/-- One target version per role, for the bundle examples. -/
def bundleTargets : ContractVersions :=
  ⟨"1.0.0", "1.0.0", "1.0.0", "1.0.0", "1.0.0", "1.0.0", "1.0.0"⟩

/-- C3: the claim states no partial per-role results are exposed to the
caller when a role fails.  False: when `L1ERC721Bridge` fails, the returned
`ImplementationList` still carries the already-resolved
`L1CrossDomainMessenger` contract next to the error. -/
theorem C3_counterexample :
    (bundleImpls.Resolve bundleTargets).2 ≠ none ∧
    (bundleImpls.Resolve bundleTargets).1.L1CrossDomainMessenger = ⟨"v1.0.0", ⟨1⟩⟩ ∧
    (bundleImpls.Resolve bundleTargets).1.L1CrossDomainMessenger ≠ zeroVC := by
  refine ⟨by decide, by decide, by decide⟩

/-- C3 (amended): an `ImplementationList` is produced with nil error exactly
when all seven roles resolve, and in that case it is the assembly of the
seven per-role results; when a role fails a non-nil error is returned, but
the accompanying struct still carries the roles resolved before the failure,
so bundle resolution is fail-fast rather than all-or-nothing in its returned
value. -/
theorem C3_resolve_bundle_success_iff (c : ContractImplementations)
    (v : ContractVersions) :
    ((c.Resolve v).2 = none ↔
      ((resolve c.L1CrossDomainMessenger v.L1CrossDomainMessenger).2 = none ∧
       (resolve c.L1ERC721Bridge v.L1ERC721Bridge).2 = none ∧
       (resolve c.L1StandardBridge v.L1StandardBridge).2 = none ∧
       (resolve c.L2OutputOracle v.L2OutputOracle).2 = none ∧
       (resolve c.OptimismMintableERC20Factory v.OptimismMintableERC20Factory).2 = none ∧
       (resolve c.OptimismPortal v.OptimismPortal).2 = none ∧
       (resolve c.SystemConfig v.SystemConfig).2 = none)) ∧
    ((c.Resolve v).2 ≠ none ∨
      (c.Resolve v).1 =
        ⟨(resolve c.L1CrossDomainMessenger v.L1CrossDomainMessenger).1,
         (resolve c.L1ERC721Bridge v.L1ERC721Bridge).1,
         (resolve c.L1StandardBridge v.L1StandardBridge).1,
         (resolve c.L2OutputOracle v.L2OutputOracle).1,
         (resolve c.OptimismMintableERC20Factory v.OptimismMintableERC20Factory).1,
         (resolve c.OptimismPortal v.OptimismPortal).1,
         (resolve c.SystemConfig v.SystemConfig).1⟩) := by
  unfold ContractImplementations.Resolve
  rcases h1 : (resolve c.L1CrossDomainMessenger v.L1CrossDomainMessenger).2 with _ | e1 <;>
  rcases h2 : (resolve c.L1ERC721Bridge v.L1ERC721Bridge).2 with _ | e2 <;>
  rcases h3 : (resolve c.L1StandardBridge v.L1StandardBridge).2 with _ | e3 <;>
  rcases h4 : (resolve c.L2OutputOracle v.L2OutputOracle).2 with _ | e4 <;>
  rcases h5 : (resolve c.OptimismMintableERC20Factory v.OptimismMintableERC20Factory).2
    with _ | e5 <;>
  rcases h6 : (resolve c.OptimismPortal v.OptimismPortal).2 with _ | e6 <;>
  rcases h7 : (resolve c.SystemConfig v.SystemConfig).2 with _ | e7 <;>
  simp [h1, h2, h3, h4, h5, h6, h7, zeroImplementationList]

/-- C5: bundle resolution checks the seven roles in one fixed order; the
error it returns is exactly the first failing role's, wrapping that role's
`EmptySet` or `Unresolvable` cause — later failing roles are never
reported. -/
theorem C5_resolve_bundle_first_failure (c : ContractImplementations)
    (v : ContractVersions) :
    (c.Resolve v).2 = firstRoleFailure c v := by
  unfold ContractImplementations.Resolve firstRoleFailure roleResults
  rcases h1 : (resolve c.L1CrossDomainMessenger v.L1CrossDomainMessenger).2 with _ | e1 <;>
  rcases h2 : (resolve c.L1ERC721Bridge v.L1ERC721Bridge).2 with _ | e2 <;>
  rcases h3 : (resolve c.L1StandardBridge v.L1StandardBridge).2 with _ | e3 <;>
  rcases h4 : (resolve c.L2OutputOracle v.L2OutputOracle).2 with _ | e4 <;>
  rcases h5 : (resolve c.OptimismMintableERC20Factory v.OptimismMintableERC20Factory).2
    with _ | e5 <;>
  rcases h6 : (resolve c.OptimismPortal v.OptimismPortal).2 with _ | e6 <;>
  rcases h7 : (resolve c.SystemConfig v.SystemConfig).2 with _ | e7 <;>
  simp [h1, h2, h3, h4, h5, h6, h7]

/-- C6: after merging, every key present in the source maps to the source's
address (the source overwrites the destination on collisions) and every key
present only in the destination keeps the destination's address (no key is
removed).  The hypotheses state that the source's per-role key lists are
duplicate-free, which Go maps guarantee by construction. -/
theorem C6_merge_characterization (c other : ContractImplementations) (k : String)
    (h1 : (AddressSet.keyList other.L1CrossDomainMessenger).Nodup)
    (h2 : (AddressSet.keyList other.L1ERC721Bridge).Nodup)
    (h3 : (AddressSet.keyList other.L1StandardBridge).Nodup)
    (h4 : (AddressSet.keyList other.L2OutputOracle).Nodup)
    (h5 : (AddressSet.keyList other.OptimismMintableERC20Factory).Nodup)
    (h6 : (AddressSet.keyList other.OptimismPortal).Nodup)
    (h7 : (AddressSet.keyList other.SystemConfig).Nodup) :
    List.lookup k (c.Merge other).L1CrossDomainMessenger =
      (List.lookup k other.L1CrossDomainMessenger).or
        (List.lookup k c.L1CrossDomainMessenger) ∧
    List.lookup k (c.Merge other).L1ERC721Bridge =
      (List.lookup k other.L1ERC721Bridge).or (List.lookup k c.L1ERC721Bridge) ∧
    List.lookup k (c.Merge other).L1StandardBridge =
      (List.lookup k other.L1StandardBridge).or (List.lookup k c.L1StandardBridge) ∧
    List.lookup k (c.Merge other).L2OutputOracle =
      (List.lookup k other.L2OutputOracle).or (List.lookup k c.L2OutputOracle) ∧
    List.lookup k (c.Merge other).OptimismMintableERC20Factory =
      (List.lookup k other.OptimismMintableERC20Factory).or
        (List.lookup k c.OptimismMintableERC20Factory) ∧
    List.lookup k (c.Merge other).OptimismPortal =
      (List.lookup k other.OptimismPortal).or (List.lookup k c.OptimismPortal) ∧
    List.lookup k (c.Merge other).SystemConfig =
      (List.lookup k other.SystemConfig).or (List.lookup k c.SystemConfig) :=
  ⟨lookup_copySemverMap k _ h1 _, lookup_copySemverMap k _ h2 _,
   lookup_copySemverMap k _ h3 _, lookup_copySemverMap k _ h4 _,
   lookup_copySemverMap k _ h5 _, lookup_copySemverMap k _ h6 _,
   lookup_copySemverMap k _ h7 _⟩

/-- The destination of the spec's merge example, `{1.0.0: A, 2.0.0: C}`. -/
def mergeDst : ContractImplementations :=
  ⟨[("1.0.0", ⟨1⟩), ("2.0.0", ⟨3⟩)], [], [], [], [], [], []⟩

/-- The source of the spec's merge example, `{1.0.0: B}`. -/
def mergeSrc : ContractImplementations :=
  ⟨[("1.0.0", ⟨2⟩)], [], [], [], [], [], []⟩

/-- Witness for `C6_merge_characterization` on the spec's merge example at
the colliding key. -/
theorem C6_merge_characterization_witness :
    List.lookup "1.0.0" (mergeDst.Merge mergeSrc).L1CrossDomainMessenger =
      (List.lookup "1.0.0" mergeSrc.L1CrossDomainMessenger).or
        (List.lookup "1.0.0" mergeDst.L1CrossDomainMessenger) ∧
    List.lookup "1.0.0" (mergeDst.Merge mergeSrc).L1ERC721Bridge =
      (List.lookup "1.0.0" mergeSrc.L1ERC721Bridge).or
        (List.lookup "1.0.0" mergeDst.L1ERC721Bridge) ∧
    List.lookup "1.0.0" (mergeDst.Merge mergeSrc).L1StandardBridge =
      (List.lookup "1.0.0" mergeSrc.L1StandardBridge).or
        (List.lookup "1.0.0" mergeDst.L1StandardBridge) ∧
    List.lookup "1.0.0" (mergeDst.Merge mergeSrc).L2OutputOracle =
      (List.lookup "1.0.0" mergeSrc.L2OutputOracle).or
        (List.lookup "1.0.0" mergeDst.L2OutputOracle) ∧
    List.lookup "1.0.0" (mergeDst.Merge mergeSrc).OptimismMintableERC20Factory =
      (List.lookup "1.0.0" mergeSrc.OptimismMintableERC20Factory).or
        (List.lookup "1.0.0" mergeDst.OptimismMintableERC20Factory) ∧
    List.lookup "1.0.0" (mergeDst.Merge mergeSrc).OptimismPortal =
      (List.lookup "1.0.0" mergeSrc.OptimismPortal).or
        (List.lookup "1.0.0" mergeDst.OptimismPortal) ∧
    List.lookup "1.0.0" (mergeDst.Merge mergeSrc).SystemConfig =
      (List.lookup "1.0.0" mergeSrc.SystemConfig).or
        (List.lookup "1.0.0" mergeDst.SystemConfig) :=
  C6_merge_characterization mergeDst mergeSrc "1.0.0" (by decide) (by decide)
    (by decide) (by decide) (by decide) (by decide) (by decide)
